import Mathlib

/-!
Shallow embedding of the segregated-free-list allocator in `src/mm.c`
(64-bit build: `WSIZE = sizeof(void *) = 8`).

The heap is modelled as the ordered list of real blocks that sit between
the prologue and the epilogue; each block carries a stable identity
(standing for its payload address), its total size in bytes, and its
allocated bit.  The prologue and the epilogue are represented implicitly:
a missing previous neighbour reads as allocated (the prologue) and a
missing next neighbour reads as an allocated block of size 0 (the
epilogue), exactly as the boundary tags make them read in the C code.
The sixteen segregated free lists are lists of block identities; the
memory provider (`mem_sbrk`) is modelled as a byte budget that a request
may not exceed.
-/

namespace MM

/-- `WSIZE` from mm.c: `sizeof(void *)`, 8 on a 64-bit build. -/
def WSIZE : Nat := 8

/-- `DSIZE` from mm.c: `2 * WSIZE`. -/
def DSIZE : Nat := 2 * WSIZE

/-- `CHUNKSIZE` from mm.c: `1 << 12`. -/
def CHUNKSIZE : Nat := 4096

/-- Fuelled floor-log2, standing for mm.c's `LOG2(X)` macro
(`63 - __builtin_clzll(X)`).  The fuel only bounds the recursion; with
fuel at least `n` it computes the floor of log2. -/
def log2fuel : Nat → Nat → Nat
  | 0, _ => 0
  | f + 1, n => if 2 ≤ n then log2fuel f (n / 2) + 1 else 0

/-- `LOG2` from mm.c for a nonnegative argument. -/
def LOG2 (n : Nat) : Nat := log2fuel n n

/-- `freelistindex` from mm.c lines 634-682: `index = LOG2(block_size)`;
indices at most 4 collapse to 0, otherwise subtract 4; cap at 12. -/
def freelistindex (blockSize : Nat) : Nat :=
  let index := LOG2 blockSize
  let index := if index ≤ 4 then 0 else index - 4
  if index < 13 then index else 12

/-- A heap block: identity (standing for the payload address), total size
in bytes (header + payload + footer) and the allocated bit. -/
structure Blk where
  id : Nat
  size : Nat
  alloc : Bool
deriving DecidableEq, Inhabited

/-- Allocator state: the real blocks in address order, the 16 segregated
free-list heads (lists of block identities), a supply of fresh block
identities, and the provider's remaining byte budget (`mem_sbrk` grants a
request iff it fits the budget). -/
structure AState where
  blocks : List Blk
  freeLists : List (List Nat)
  nextId : Nat
  budget : Nat
deriving DecidableEq, Inhabited

/-- Read free list number `i` (out of range reads as empty). -/
def getList (fl : List (List Nat)) (i : Nat) : List Nat :=
  (fl.get? i).getD []

/-- Write free list number `i`. -/
def setList (fl : List (List Nat)) (i : Nat) (l : List Nat) : List (List Nat) :=
  fl.set i l

/-- First block with the given identity, if any. -/
def findBlk (s : AState) (bid : Nat) : Option Blk :=
  s.blocks.find? (fun b => b.id = bid)

/-- `GET_SIZE(HDRP(bp))` for the block with identity `bid`. -/
def blkSize (s : AState) (bid : Nat) : Nat :=
  ((findBlk s bid).map Blk.size).getD 0

/-- `add_to_free` from mm.c lines 606-624: prepend the block to the head
of free list `index` (head insertion, patching the old head). -/
def add_to_free (s : AState) (bid : Nat) (index : Nat) : AState :=
  { s with freeLists := setList s.freeLists index (bid :: getList s.freeLists index) }

/-- `remove_free` from mm.c lines 691-739: recompute the class from the
block's own size and unlink the block from that doubly-linked list (on a
well-formed list this is removal of the one occurrence). -/
def remove_free (s : AState) (bid : Nat) : AState :=
  let index := freelistindex (blkSize s bid)
  { s with freeLists := setList s.freeLists index ((getList s.freeLists index).erase bid) }

/-- The first-fit walk of a single class list in `find_fit` (mm.c lines
401-420): return the first block of size at least `asize` together with
the list with that block unlinked; earlier (too small) nodes stay. -/
def walkFit (s : AState) (asize : Nat) : List Nat → Option (Nat × List Nat)
  | [] => none
  | b :: rest =>
    if asize ≤ blkSize s b then some (b, rest)
    else
      match walkFit s asize rest with
      | none => none
      | some (x, l) => some (x, b :: l)

/-- The scan of the strictly higher classes in `find_fit` (mm.c lines
427-442): take the head of the first non-empty list, unlinking it; stop
at index 16.  The fuel argument mirrors the loop bound (16 suffices). -/
def scanHigher (s : AState) : Nat → Nat → Option (Nat × AState)
  | 0, _ => none
  | f + 1, index =>
    if index < 16 then
      match getList s.freeLists index with
      | [] => scanHigher s f (index + 1)
      | b :: t => some (b, { s with freeLists := setList s.freeLists index t })
    else none

/-- `find_fit` from mm.c lines 388-447: walk the list of
`freelistindex asize`; on failure return null at once if that index is
15, else take the head of the first non-empty strictly higher class. -/
def find_fit (s : AState) (asize : Nat) : Option (Nat × AState) :=
  let index := freelistindex asize
  match walkFit s asize (getList s.freeLists index) with
  | some (b, l) => some (b, { s with freeLists := setList s.freeLists index l })
  | none =>
    if index = 15 then none
    else scanHigher s 16 (index + 1)

/-- Replace the first block with identity `bid` by the blocks `f` makes
of it (header/footer rewriting expressed as block surgery). -/
def setBlk (blocks : List Blk) (bid : Nat) (f : Blk → List Blk) : List Blk :=
  match blocks with
  | [] => []
  | b :: rest => if b.id = bid then f b ++ rest else b :: setBlk rest bid f

/-- `place` from mm.c lines 458-480: if the remainder `csize - asize` is
at least `2 * DSIZE`, write `(asize, 1)` into the block, give the
remainder its own free header/footer and insert it into
`freelistindex (csize - asize)`; otherwise write `(csize, 1)` in place. -/
def place (s : AState) (bid : Nat) (asize : Nat) : AState :=
  let csize := blkSize s bid
  if 2 * DSIZE ≤ csize - asize then
    let remId := s.nextId
    let s1 := { s with
      blocks := setBlk s.blocks bid
        (fun b => [⟨b.id, asize, true⟩, ⟨remId, csize - asize, false⟩]),
      nextId := s.nextId + 1 }
    add_to_free s1 remId (freelistindex (csize - asize))
  else
    { s with blocks := setBlk s.blocks bid (fun b => [⟨b.id, csize, true⟩]) }

/-- Split the block list at the first block with identity `bid`,
returning the blocks before it, the block, and the blocks after it. -/
def splitAtId (blocks : List Blk) (bid : Nat) : Option (List Blk × Blk × List Blk) :=
  match blocks with
  | [] => none
  | b :: rest =>
    if b.id = bid then some ([], b, rest)
    else
      match splitAtId rest bid with
      | none => none
      | some (l, x, r) => some (b :: l, x, r)

/-- `coalesce` from mm.c lines 295-348: boundary-tag merging with the
four neighbour cases.  A missing previous neighbour is the prologue and a
missing next neighbour is the epilogue, both allocated.  As in the
source, the merged block is NOT inserted into any free list (the
`add_to_free` at lines 344-345 is commented out); merged-away neighbours
are removed from theirs.  Returns the resulting payload identity. -/
def coalesce (s : AState) (bid : Nat) : Nat × AState :=
  match splitAtId s.blocks bid with
  | none => (bid, s)
  | some (pre, b, post) =>
    let prevAlloc := ((pre.getLast?).map Blk.alloc).getD true
    let nextAlloc := ((post.head?).map Blk.alloc).getD true
    if prevAlloc && nextAlloc then
      (bid, s)
    else if prevAlloc && !nextAlloc then
      match post with
      | [] => (bid, s)
      | n :: post2 =>
        let s1 := remove_free s n.id
        (bid, { s1 with blocks := pre ++ ⟨b.id, b.size + n.size, false⟩ :: post2 })
    else if !prevAlloc && nextAlloc then
      match pre.getLast? with
      | none => (bid, s)
      | some p =>
        let s1 := remove_free s p.id
        (p.id, { s1 with blocks := pre.dropLast ++ ⟨p.id, p.size + b.size, false⟩ :: post })
    else
      match pre.getLast?, post with
      | some p, n :: post2 =>
        let s1 := remove_free (remove_free s n.id) p.id
        (p.id, { s1 with
          blocks := pre.dropLast ++ ⟨p.id, p.size + b.size + n.size, false⟩ :: post2 })
      | _, _ => (bid, s)

/-- `extend_heap` from mm.c lines 357-378: round the word count up to an
even number, ask the provider (fails when the request exceeds the
budget), append the new free block at the top of the heap and coalesce
it with a free former tail. -/
def extend_heap (s : AState) (words : Nat) : Option (Nat × AState) :=
  let size := if words % 2 = 1 then (words + 1) * WSIZE else words * WSIZE
  if size ≤ s.budget then
    let nid := s.nextId
    let s1 := { s with
      blocks := s.blocks ++ [⟨nid, size, false⟩],
      nextId := s.nextId + 1,
      budget := s.budget - size }
    some (coalesce s1 nid)
  else none

/-- The adjusted block size of `mm_malloc` (mm.c lines 162-165). -/
def asize (size : Nat) : Nat :=
  if size ≤ DSIZE then 2 * DSIZE
  else DSIZE * ((size + DSIZE + (DSIZE - 1)) / DSIZE)

/-- `mm_malloc` from mm.c lines 151-195: reject size 0; adjust the size;
serve from `find_fit`/`place`, else extend the heap and place there. -/
def mm_malloc (s : AState) (size : Nat) : Option Nat × AState :=
  if size = 0 then (none, s)
  else
    match find_fit s (asize size) with
    | some (bid, s1) => (some bid, place s1 bid (asize size))
    | none =>
      match extend_heap s (asize size / WSIZE) with
      | none => (none, s)
      | some (bid, s1) => (some bid, place s1 bid (asize size))

/-- `mm_free` from mm.c lines 204-222: no-op on null; otherwise clear
the allocated bit on header and footer and insert the block into the
list of its class.  As in the source, the `coalesce(bp)` call at line
220 is commented out, so no merging happens. -/
def mm_free (s : AState) (ptr : Option Nat) : AState :=
  match ptr with
  | none => s
  | some bid =>
    let size := blkSize s bid
    let s1 := { s with blocks := setBlk s.blocks bid (fun b => [⟨b.id, b.size, false⟩]) }
    add_to_free s1 bid (freelistindex size)

/-- The next physical block (`NEXT_BLKP`) of the block with identity
`bid`; `none` is the epilogue. -/
def nextBlk (s : AState) (bid : Nat) : Option Blk :=
  match splitAtId s.blocks bid with
  | none => none
  | some (_, _, post) => post.head?

/-- Merge the block `bid` with its next physical neighbour, writing the
combined `(oldsize + nextsize, 1)` header/footer (the realloc fast path,
mm.c lines 259-262). -/
def absorbNext (blocks : List Blk) (bid : Nat) : List Blk :=
  match blocks with
  | [] => []
  | b :: rest =>
    if b.id = bid then
      match rest with
      | [] => b :: rest
      | n :: rest2 => ⟨b.id, b.size + n.size, true⟩ :: rest2
    else b :: absorbNext rest bid

/-- `mm_realloc` from mm.c lines 237-281.  The third component of the
result records the number of bytes `memcpy` copies (0 when no copy
happens): in the copy path the source sets `oldsize = size` when
`size < oldsize` and then copies `oldsize` bytes, `oldsize` being the
old block's TOTAL size `GET_SIZE(HDRP(ptr))`. -/
def mm_realloc (s : AState) (ptr : Option Nat) (size : Nat) : Option Nat × AState × Nat :=
  if size = 0 then (none, mm_free s ptr, 0)
  else
    match ptr with
    | none =>
      match mm_malloc s size with
      | (r, s1) => (r, s1, 0)
    | some bid =>
      let oldsize := blkSize s bid
      let nxt := nextBlk s bid
      let nextsize := ((nxt.map Blk.size).getD 0)
      let nextalloc := ((nxt.map Blk.alloc).getD true)
      if size < oldsize + nextsize ∧ nextalloc = false then
        match nxt with
        | none => (some bid, s, 0)
        | some n =>
          let s1 := remove_free s n.id
          (some bid, { s1 with blocks := absorbNext s1.blocks bid }, 0)
      else
        match mm_malloc s size with
        | (none, _) => (none, s, 0)
        | (some nid, s1) =>
          let cpy := if size < oldsize then size else oldsize
          (some nid, mm_free s1 (some bid), cpy)

/-- `mm_init` from mm.c lines 111-140: obtain `4 * WSIZE` bytes for
padding/prologue/epilogue plus `16` pointers of list heads (160 bytes
total), null the heads, extend the heap by `CHUNKSIZE / WSIZE` words and
insert the initial block into `freelistindex(CHUNKSIZE)`.  Returns the
C result (`0` or `-1`) and the state on success. -/
def mm_init (budget : Nat) : Int × Option AState :=
  if 4 * WSIZE + 16 * WSIZE ≤ budget then
    let s0 : AState :=
      { blocks := [], freeLists := List.replicate 16 [], nextId := 0,
        budget := budget - (4 * WSIZE + 16 * WSIZE) }
    match extend_heap s0 (CHUNKSIZE / WSIZE) with
    | none => (-1, none)
    | some (bid, s1) => (0, some (add_to_free s1 bid (freelistindex CHUNKSIZE)))
  else (-1, none)

/-! ### Concrete operation traces -/

/-- The state after a successful `mm_init` with an ample provider. -/
def traceInit : AState := ((mm_init 8000).2).getD default

/-- `a = allocate(16)` after init. -/
def traceA : Option Nat × AState := mm_malloc traceInit 16

/-- `b = allocate(16)` after `a`. -/
def traceB : Option Nat × AState := mm_malloc traceA.2 16

/-- `free(a)`. -/
def traceFreeA : AState := mm_free traceB.2 traceA.1

/-- `free(b)`. -/
def traceFreeB : AState := mm_free traceFreeA traceB.1

/-- Does the heap hold two physically adjacent blocks that are both free? -/
def hasAdjFreePair : List Blk → Bool
  | b :: c :: rest => (!b.alloc && !c.alloc) || hasAdjFreePair (c :: rest)
  | _ => false

/-- A heap with an allocated 32-byte block (identity 0) whose next
physical neighbour is a free 32-byte block (identity 1) sitting in
class-1's list. -/
def cs3 : AState :=
  { blocks := [⟨0, 32, true⟩, ⟨1, 32, false⟩],
    freeLists := [[], [1], [], [], [], [], [], [], [], [], [], [], [], [], [], []],
    nextId := 2, budget := 0 }

/-- A heap with an allocated 32-byte block (identity 0), an allocated
32-byte next neighbour (identity 1) and a free 4096-byte tail (identity
2) in class-8's list. -/
def cs4 : AState :=
  { blocks := [⟨0, 32, true⟩, ⟨1, 32, true⟩, ⟨2, 4096, false⟩],
    freeLists := [[], [], [], [], [], [], [], [], [2], [], [], [], [], [], [], []],
    nextId := 3, budget := 0 }

/-- The free-list heads of classes 13, 14 and 15 are null. -/
def hiEmpty (s : AState) : Prop :=
  getList s.freeLists 13 = [] ∧ getList s.freeLists 14 = [] ∧ getList s.freeLists 15 = []

/-! ### Arithmetic facts about the size-class index -/

theorem log2fuel_eq (f : Nat) : ∀ n, n ≤ f → log2fuel f n = Nat.log 2 n := by
  induction f with
  | zero =>
    intro n hn
    interval_cases n
    simp [log2fuel]
  | succ f ih =>
    intro n hn
    by_cases h2 : 2 ≤ n
    · have hdiv : n / 2 ≤ f := by omega
      have hrec : Nat.log 2 n = Nat.log 2 (n / 2) + 1 := by
        have hpos : 0 < Nat.log 2 n := Nat.log_pos (by norm_num) h2
        have := Nat.log_div_base 2 n
        omega
      simp only [log2fuel, if_pos h2, ih (n / 2) hdiv, hrec]
    · have : Nat.log 2 n = 0 := Nat.log_eq_zero_iff.mpr (Or.inl (by omega))
      simp only [log2fuel, if_neg h2, this]

theorem LOG2_eq (n : Nat) : LOG2 n = Nat.log 2 n :=
  log2fuel_eq n n le_rfl

theorem freelistindex_le_12 (n : Nat) : freelistindex n ≤ 12 := by
  simp only [freelistindex]
  split_ifs <;> omega

theorem freelistindex_mono {m n : Nat} (h : m ≤ n) :
    freelistindex m ≤ freelistindex n := by
  have hlog : Nat.log 2 m ≤ Nat.log 2 n := Nat.log_mono_right h
  simp only [freelistindex, LOG2_eq]
  split_ifs <;> omega

theorem lt_of_freelistindex_lt {m n : Nat} (h : freelistindex m < freelistindex n) :
    m < n := by
  by_contra hc
  exact absurd (freelistindex_mono (by omega : n ≤ m)) (by omega)

theorem freelistindex_overflow {n : Nat} (h : 65536 ≤ n) : freelistindex n = 12 := by
  have h16 : 16 ≤ Nat.log 2 n := by
    have := (Nat.pow_le_iff_le_log (b := 2) (by norm_num) (x := 16) (y := n)
      (by omega)).mp (by norm_num; omega)
    exact this
  simp only [freelistindex, LOG2_eq]
  split_ifs <;> omega

/-! ### Claim theorems -/

/-- C1: the claim states that after any free returns, no two physically
adjacent blocks are both free.  The code violates this: `mm_free` never
calls `coalesce` (the call at mm.c line 220 is commented out), so after
`init; a = allocate(16); b = allocate(16); free(a); free(b)` the heap
holds adjacent free blocks.  This theorem evaluates the embedded code at
that failing input. -/
theorem C1_adjacent_free_pair_after_free :
    hasAdjFreePair traceFreeB.blocks = true := by decide

/-- C2: the claim states that `free` invokes `coalesce`, merging the
block with free adjacent neighbours and inserting the merged block.  The
code does not: after `free(a); free(b)` with `a`, `b`, and the heap tail
physically adjacent, all three blocks survive unmerged (sizes 32, 32 and
4032) and `a` and `b` sit separately in class-1's list.  This theorem
evaluates the embedded code at that failing input. -/
theorem C2_free_skips_coalesce :
    traceFreeB.blocks = [⟨0, 32, false⟩, ⟨1, 32, false⟩, ⟨2, 4032, false⟩] ∧
    getList traceFreeB.freeLists 1 = [1, 0] := by decide

/-- C6: for every positive request, `mm_malloc`'s adjusted size is the
minimum block `2 * DSIZE = 4W` when `size ≤ DSIZE = 2W`, and otherwise
the least doubleword multiple that is at least `size + DSIZE`, which is
exactly `2W * ceil((size + 2W) / 2W)`. -/
theorem C6_asize_adjustment (size : Nat) (h : 0 < size) :
    (size ≤ DSIZE → asize size = 2 * DSIZE) ∧
    (DSIZE < size →
      asize size % DSIZE = 0 ∧ size + DSIZE ≤ asize size ∧
      ∀ m, m % DSIZE = 0 → size + DSIZE ≤ m → asize size ≤ m) := by
  have hD : DSIZE = 16 := rfl
  simp only [asize, hD]
  constructor
  · intro hle
    rw [if_pos hle]
  · intro hlt
    rw [if_neg (by omega)]
    exact ⟨by omega, by omega, fun m hm hsm => by omega⟩

/-- Witness for C6 at the concrete requests 10 and 100. -/
theorem C6_asize_adjustment_witness :
    asize 10 = 2 * DSIZE ∧ asize 100 % DSIZE = 0 ∧ 100 + DSIZE ≤ asize 100 := by
  refine ⟨(C6_asize_adjustment 10 (by decide)).1 (by decide), ?_, ?_⟩
  · exact (((C6_asize_adjustment 100 (by decide)).2 (by decide))).1
  · exact (((C6_asize_adjustment 100 (by decide)).2 (by decide))).2.1

/-- C9: the size-class index is total on positive sizes and monotone
non-decreasing, its results lie in `[0, 13)` (the implementation
produces 13 classes, 0 through 12), and every size at or above the
largest boundary `65536 = 2 ^ 16` maps to `12 = K - 1`. -/
theorem C9_freelistindex_monotone_bounded (s t : Nat) (hs : 0 < s) (hst : s ≤ t) :
    freelistindex s ≤ freelistindex t ∧ freelistindex s < 13 ∧
    (65536 ≤ s → freelistindex s = 12) :=
  ⟨freelistindex_mono hst,
   by have := freelistindex_le_12 s; omega,
   fun hbig => freelistindex_overflow hbig⟩

/-- Witness for C9 at the concrete sizes 70000 and 80000. -/
theorem C9_freelistindex_monotone_bounded_witness :
    freelistindex 70000 ≤ freelistindex 80000 ∧ freelistindex 70000 = 12 := by
  have h := C9_freelistindex_monotone_bounded 70000 80000 (by decide) (by decide)
  exact ⟨h.1, h.2.2 (by decide)⟩

/-- C3 counterexample: at `reallocate(p, 63)` on `cs3` the strict
comparison `oldsize + nextsize = 64 > 63` admits the in-place fast path
(the same pointer is returned and the combined block is 64 bytes), yet
the combined block does NOT accommodate 63 payload bytes plus one word
of header and one word of footer, which would need `63 + 16 = 79`
bytes.  So "under this strict comparison the footer always fits" is
false as stated. -/
theorem C3_footer_fit_counterexample :
    (mm_realloc cs3 (some 0) 63).1 = some 0 ∧
    blkSize ((mm_realloc cs3 (some 0) 63).2.1) 0 = 64 ∧
    ¬ (63 + 2 * WSIZE ≤ 64) := by decide

/-- C3 (amended): the fast-path mechanics are as claimed — when the next
block is free and `oldsize + nextsize > size`, `mm_realloc` removes the
next block from its free list, writes `(oldsize + nextsize, allocated)`
over the combined block, and returns the pointer unchanged with no
copy.  The footer-slack guarantee holds when the requested `size` is a
doubleword multiple (block sizes always are): then
`oldsize + nextsize ≥ size + 2W`.  For a general `size` the strict
comparison guarantees only `size < oldsize + nextsize`. -/
theorem C3_realloc_fast_path (s : AState) (bid : Nat) (n : Blk) (size : Nat)
    (hsz : size ≠ 0)
    (hn : nextBlk s bid = some n)
    (hfree : n.alloc = false)
    (hlt : size < blkSize s bid + n.size) :
    mm_realloc s (some bid) size =
      (some bid,
       { remove_free s n.id with blocks := absorbNext (remove_free s n.id).blocks bid },
       0) ∧
    (blkSize s bid % DSIZE = 0 → n.size % DSIZE = 0 → size % DSIZE = 0 →
      size + DSIZE ≤ blkSize s bid + n.size) := by
  constructor
  · simp only [mm_realloc, hn, Option.map_some, Option.getD_some]
    rw [if_neg hsz, if_pos ⟨hlt, hfree⟩]
  · have hD : DSIZE = 16 := rfl
    rw [hD]
    intro h1 h2 h3
    omega

/-- Witness for C3 at `cs3` with the doubleword-multiple request 48. -/
theorem C3_realloc_fast_path_witness :
    mm_realloc cs3 (some 0) 48 =
      (some 0,
       { remove_free cs3 1 with blocks := absorbNext (remove_free cs3 1).blocks 0 },
       0) ∧
    48 + DSIZE ≤ blkSize cs3 0 + 32 := by
  have h := C3_realloc_fast_path cs3 0 ⟨1, 32, false⟩ 48 (by decide) (by decide)
    (by decide) (by decide)
  exact ⟨h.1, h.2 (by decide) (by decide) (by decide)⟩

/-- C4 counterexample: in the copy case at `reallocate(p, 100)` on
`cs4` (old block total size 32, next neighbour allocated, fresh
allocation succeeds), the code copies `min(size, oldsize) = 32` bytes —
`mm_realloc` sets `oldsize = size` only when `size < oldsize` and hands
`oldsize` to `memcpy` — not the claimed
`min(size, oldsize - 2W) = min(100, 16) = 16` payload bytes. -/
theorem C4_copy_length_counterexample :
    (mm_realloc cs4 (some 0) 100).2.2 = 32 ∧
    blkSize cs4 0 = 32 ∧
    ¬ ((mm_realloc cs4 (some 0) 100).2.2 = min 100 (32 - 2 * WSIZE)) := by decide

/-- C4 (amended): in the copy case (non-null pointer, nonzero size,
fast path not taken, fresh allocation succeeds) exactly
`min(size, oldsize)` bytes are copied, `oldsize` being the old block's
TOTAL size — this includes every one of the `min(size, oldsize - 2W)`
payload bytes the claim names, plus up to `2W` bytes of adjacent
metadata when `size > oldsize - 2W`; then the old block is freed and
the new pointer is returned. -/
theorem C4_realloc_copy (s : AState) (bid nid : Nat) (size : Nat) (s1 : AState)
    (hsz : size ≠ 0)
    (hguard : ¬ (size < blkSize s bid + ((nextBlk s bid).map Blk.size).getD 0 ∧
                 ((nextBlk s bid).map Blk.alloc).getD true = false))
    (hmalloc : mm_malloc s size = (some nid, s1)) :
    mm_realloc s (some bid) size =
      (some nid, mm_free s1 (some bid), min size (blkSize s bid)) ∧
    min size (blkSize s bid - 2 * WSIZE) ≤ min size (blkSize s bid) := by
  constructor
  · simp only [mm_realloc]
    rw [if_neg hsz, if_neg hguard, hmalloc]
    have hmin : (if size < blkSize s bid then size else blkSize s bid) =
        min size (blkSize s bid) := by
      split_ifs <;> omega
    rw [hmin]
  · omega

/-- Witness for C4 at `cs4` with request 100. -/
theorem C4_realloc_copy_witness :
    mm_realloc cs4 (some 0) 100 =
      (some 2, mm_free (mm_malloc cs4 100).2 (some 0), min 100 (blkSize cs4 0)) :=
  (C4_realloc_copy cs4 0 2 100 (mm_malloc cs4 100).2 (by decide) (by decide)
    (by decide)).1

/-! ### Out-of-memory behaviour -/

theorem asize_ge (size : Nat) : 2 * DSIZE ≤ asize size := by
  have hD : DSIZE = 16 := rfl
  simp only [asize, hD]
  split_ifs <;> omega

theorem extend_heap_no_budget (s : AState) (w : Nat) (hw : 0 < w)
    (hb : s.budget = 0) : extend_heap s w = none := by
  have hW : WSIZE = 8 := rfl
  simp only [extend_heap, hb, hW]
  rw [if_neg]
  split_ifs <;> omega

/-- C5: when the provider refuses to extend the heap, `mm_init` returns
-1, `mm_malloc` (finding no fit) returns null leaving the state intact,
and `mm_realloc` on a live block returns null with NO side effects: the
whole state — every header, footer, payload and free list — is exactly
the pre-call state. -/
theorem C5_oom_null_and_preserved (s : AState) (bid size : Nat)
    (hb : s.budget = 0) (hsz : size ≠ 0)
    (hff : find_fit s (asize size) = none)
    (hguard : ¬ (size < blkSize s bid + ((nextBlk s bid).map Blk.size).getD 0 ∧
                 ((nextBlk s bid).map Blk.alloc).getD true = false)) :
    mm_init 0 = (-1, none) ∧
    mm_malloc s size = (none, s) ∧
    mm_realloc s (some bid) size = (none, s, 0) := by
  have hmal : mm_malloc s size = (none, s) := by
    have hx : extend_heap s (asize size / WSIZE) = none := by
      refine extend_heap_no_budget s _ ?_ hb
      have := asize_ge size
      have hW : WSIZE = 8 := rfl
      have hD : DSIZE = 16 := rfl
      rw [hW]
      omega
    simp only [mm_malloc, hff, hx]
    rw [if_neg hsz]
  refine ⟨by decide, hmal, ?_⟩
  simp only [mm_realloc]
  rw [if_neg hsz, if_neg hguard, hmal]

/-- Witness for C5: `cs3` has an exhausted provider; request 5000 finds
no fit and the next neighbour of block 0 is too small for the fast
path. -/
theorem C5_oom_null_and_preserved_witness :
    mm_init 0 = (-1, none) ∧
    mm_malloc cs3 5000 = (none, cs3) ∧
    mm_realloc cs3 (some 0) 5000 = (none, cs3, 0) :=
  C5_oom_null_and_preserved cs3 0 5000 (by decide) (by decide) (by decide) (by decide)

/-! ### Placement -/

theorem find?_id_append (pre : List Blk) (blk : Blk) (post : List Blk)
    (hpre : ∀ x ∈ pre, x.id ≠ blk.id) :
    (pre ++ blk :: post).find? (fun b => b.id = blk.id) = some blk := by
  induction pre with
  | nil => simp [List.find?]
  | cons p rest ih =>
    have hp : p.id ≠ blk.id := hpre p (by simp)
    rw [List.cons_append, List.find?_cons_of_neg _ (by simpa using hp)]
    exact ih (fun x hx => hpre x (by simp [hx]))

theorem blkSize_of_split (s : AState) (pre post : List Blk) (blk : Blk)
    (hs : s.blocks = pre ++ blk :: post)
    (hpre : ∀ x ∈ pre, x.id ≠ blk.id) :
    blkSize s blk.id = blk.size := by
  simp only [blkSize, findBlk, hs, find?_id_append pre blk post hpre]
  rfl

theorem setBlk_split (pre : List Blk) (blk : Blk) (post : List Blk)
    (f : Blk → List Blk) (hpre : ∀ x ∈ pre, x.id ≠ blk.id) :
    setBlk (pre ++ blk :: post) blk.id f = pre ++ f blk ++ post := by
  induction pre with
  | nil => simp [setBlk]
  | cons p rest ih =>
    have hp : p.id ≠ blk.id := hpre p (by simp)
    simp only [List.cons_append, setBlk]
    rw [if_neg hp]
    simp [ih (fun x hx => hpre x (by simp [hx]))]

/-- C7: `place` on the block of size `csize` splits exactly when
`csize - asize ≥ 2 * DSIZE = 4W`: the block's header/footer become
`(asize, allocated)`, a fresh free remainder of size `csize - asize`
follows it, and the remainder is inserted into the class
`freelistindex (csize - asize)`; when `csize - asize < 4W` the block
becomes `(csize, allocated)` in place and nothing is inserted (the free
lists are untouched). -/
theorem C7_place_split_threshold (s : AState) (pre post : List Blk) (blk : Blk)
    (a : Nat) (hs : s.blocks = pre ++ blk :: post)
    (hpre : ∀ x ∈ pre, x.id ≠ blk.id) (hle : a ≤ blk.size) :
    (2 * DSIZE ≤ blk.size - a →
      place s blk.id a =
        add_to_free
          { s with
            blocks := pre ++ ⟨blk.id, a, true⟩ :: ⟨s.nextId, blk.size - a, false⟩ :: post,
            nextId := s.nextId + 1 }
          s.nextId (freelistindex (blk.size - a))) ∧
    (blk.size - a < 2 * DSIZE →
      place s blk.id a = { s with blocks := pre ++ ⟨blk.id, blk.size, true⟩ :: post }) := by
  have hsz := blkSize_of_split s pre post blk hs hpre
  constructor
  · intro hsplit
    simp only [place, hsz]
    rw [if_pos hsplit, hs, setBlk_split pre blk post _ hpre]
    simp
  · intro hwhole
    simp only [place, hsz]
    rw [if_neg (by omega), hs, setBlk_split pre blk post _ hpre]
    simp

/-- Witness for C7: splitting the free 4096-byte tail of `cs4` for an
adjusted request of 128 bytes leaves a 3968-byte remainder in class 7,
and consuming block 1 of `cs3` whole leaves the free lists untouched. -/
theorem C7_place_split_threshold_witness :
    place cs4 2 128 =
      add_to_free
        { cs4 with
          blocks := [⟨0, 32, true⟩, ⟨1, 32, true⟩] ++ ⟨2, 128, true⟩ :: ⟨3, 3968, false⟩ :: [],
          nextId := 4 }
        3 (freelistindex 3968) ∧
    place cs3 1 32 = { cs3 with blocks := [⟨0, 32, true⟩] ++ ⟨1, 32, true⟩ :: [] } := by
  constructor
  · exact (C7_place_split_threshold cs4 [⟨0, 32, true⟩, ⟨1, 32, true⟩] []
      ⟨2, 4096, false⟩ 128 rfl (by decide) (by decide)).1 (by decide)
  · exact (C7_place_split_threshold cs3 [⟨0, 32, true⟩] [] ⟨1, 32, false⟩ 32 rfl
      (by decide) (by decide)).2 (by decide)

/-! ### The high free-list heads stay null -/

theorem getList_setList_ne (fl : List (List Nat)) (i j : Nat) (l : List Nat)
    (h : i ≠ j) : getList (setList fl i l) j = getList fl j := by
  simp only [getList, setList, List.get?_set_ne _ _ h]

theorem getList_setList_nil (fl : List (List Nat)) (i : Nat) :
    getList (setList fl i []) i = [] := by
  simp only [getList, setList, List.get?_set_eq]
  cases fl.get? i <;> rfl

theorem hiEmpty_set (s : AState) (i : Nat) (l : List Nat) (h : hiEmpty s)
    (hl : 13 ≤ i → l = []) :
    hiEmpty { s with freeLists := setList s.freeLists i l } := by
  obtain ⟨h13, h14, h15⟩ := h
  have key : ∀ j, 13 ≤ j → getList s.freeLists j = [] →
      getList (setList s.freeLists i l) j = [] := by
    intro j hj hempty
    by_cases hij : i = j
    · subst hij
      rw [hl hj]
      exact getList_setList_nil s.freeLists i
    · rw [getList_setList_ne s.freeLists i j l hij]
      exact hempty
  exact ⟨key 13 (by omega) h13, key 14 (by omega) h14, key 15 (by omega) h15⟩

theorem hiEmpty_add_to_free (s : AState) (bid i : Nat) (hi : i ≤ 12)
    (h : hiEmpty s) : hiEmpty (add_to_free s bid i) :=
  hiEmpty_set s i _ h (fun h13 => absurd h13 (by omega))

theorem hiEmpty_remove_free (s : AState) (bid : Nat) (h : hiEmpty s) :
    hiEmpty (remove_free s bid) :=
  hiEmpty_set s _ _ h
    (fun h13 => absurd (freelistindex_le_12 (blkSize s bid)) (by omega))

theorem hiEmpty_scanHigher (s : AState) (h : hiEmpty s) :
    ∀ f i b s2, scanHigher s f i = some (b, s2) → hiEmpty s2 := by
  intro f
  induction f with
  | zero =>
    intro i b s2 hs
    simp [scanHigher] at hs
  | succ f ih =>
    intro i b s2 hs
    by_cases hi : i < 16
    · rw [scanHigher, if_pos hi] at hs
      cases hgl : getList s.freeLists i with
      | nil =>
        rw [hgl] at hs
        exact ih (i + 1) b s2 hs
      | cons x t =>
        rw [hgl] at hs
        have hx : x = b ∧ { s with freeLists := setList s.freeLists i t } = s2 := by
          have := Option.some.inj hs
          exact ⟨congrArg Prod.fst this, congrArg Prod.snd this⟩
        rw [← hx.2]
        refine hiEmpty_set s i t h (fun h13 => ?_)
        obtain ⟨h13e, h14e, h15e⟩ := h
        have : i = 13 ∨ i = 14 ∨ i = 15 := by omega
        rcases this with rfl | rfl | rfl
        · rw [h13e] at hgl; cases hgl
        · rw [h14e] at hgl; cases hgl
        · rw [h15e] at hgl; cases hgl
    · rw [scanHigher, if_neg hi] at hs
      cases hs

theorem scanHigher_mem (s : AState) :
    ∀ f i b s2, scanHigher s f i = some (b, s2) →
      ∃ j t, i ≤ j ∧ j < 16 ∧ getList s.freeLists j = b :: t := by
  intro f
  induction f with
  | zero =>
    intro i b s2 hs
    simp [scanHigher] at hs
  | succ f ih =>
    intro i b s2 hs
    by_cases hi : i < 16
    · rw [scanHigher, if_pos hi] at hs
      cases hgl : getList s.freeLists i with
      | nil =>
        rw [hgl] at hs
        obtain ⟨j, t, hj1, hj2, hj3⟩ := ih (i + 1) b s2 hs
        exact ⟨j, t, by omega, hj2, hj3⟩
      | cons x t =>
        rw [hgl] at hs
        have hx : x = b := congrArg Prod.fst (Option.some.inj hs)
        exact ⟨i, t, le_rfl, hi, by rw [hgl, hx]⟩
    · rw [scanHigher, if_neg hi] at hs
      cases hs

theorem walkFit_mem (s : AState) (a : Nat) :
    ∀ l b l2, walkFit s a l = some (b, l2) → b ∈ l := by
  intro l
  induction l with
  | nil =>
    intro b l2 hw
    simp [walkFit] at hw
  | cons x rest ih =>
    intro b l2 hw
    rw [walkFit] at hw
    by_cases hfit : a ≤ blkSize s x
    · rw [if_pos hfit] at hw
      have : x = b := congrArg Prod.fst (Option.some.inj hw)
      simp [this]
    · rw [if_neg hfit] at hw
      cases hrec : walkFit s a rest with
      | none => rw [hrec] at hw; cases hw
      | some p =>
        obtain ⟨y, l1⟩ := p
        rw [hrec] at hw
        have : y = b := congrArg Prod.fst (Option.some.inj hw)
        exact List.mem_cons_of_mem x (this ▸ ih y l1 hrec)

theorem hiEmpty_find_fit (s : AState) (a b : Nat) (s2 : AState) (h : hiEmpty s)
    (hf : find_fit s a = some (b, s2)) :
    hiEmpty s2 ∧ ∃ i, i ≤ 12 ∧ b ∈ getList s.freeLists i := by
  rw [find_fit] at hf
  cases hw : walkFit s a (getList s.freeLists (freelistindex a)) with
  | some p =>
    obtain ⟨x, l⟩ := p
    rw [hw] at hf
    have hx : x = b ∧ { s with freeLists := setList s.freeLists (freelistindex a) l } = s2 := by
      have := Option.some.inj hf
      exact ⟨congrArg Prod.fst this, congrArg Prod.snd this⟩
    constructor
    · rw [← hx.2]
      exact hiEmpty_set s _ l h
        (fun h13 => absurd (freelistindex_le_12 a) (by omega))
    · exact ⟨freelistindex a, freelistindex_le_12 a,
        hx.1 ▸ walkFit_mem s a _ x l hw⟩
  | none =>
    rw [hw] at hf
    by_cases h15 : freelistindex a = 15
    · rw [if_pos h15] at hf; cases hf
    · rw [if_neg h15] at hf
      refine ⟨hiEmpty_scanHigher s h 16 _ b s2 hf, ?_⟩
      obtain ⟨j, t, hj1, hj2, hj3⟩ := scanHigher_mem s 16 _ b s2 hf
      have hj12 : j ≤ 12 := by
        obtain ⟨h13e, h14e, h15e⟩ := h
        by_contra hgt
        have : j = 13 ∨ j = 14 ∨ j = 15 := by omega
        rcases this with rfl | rfl | rfl
        · rw [h13e] at hj3; cases hj3
        · rw [h14e] at hj3; cases hj3
        · rw [h15e] at hj3; cases hj3
      exact ⟨j, hj12, by rw [hj3]; simp⟩

theorem hiEmpty_coalesce (s : AState) (bid : Nat) (h : hiEmpty s) :
    hiEmpty (coalesce s bid).2 := by
  unfold coalesce
  repeat' split
  all_goals dsimp only
  all_goals repeat' split
  all_goals
    first
      | exact h
      | exact hiEmpty_remove_free _ _ h
      | exact hiEmpty_remove_free _ _ (hiEmpty_remove_free _ _ h)
      | simp_all

theorem hiEmpty_extend_heap (s : AState) (w b : Nat) (s2 : AState) (h : hiEmpty s)
    (he : extend_heap s w = some (b, s2)) : hiEmpty s2 := by
  rw [extend_heap] at he
  dsimp only at he
  by_cases hc : (if w % 2 = 1 then (w + 1) * WSIZE else w * WSIZE) ≤ s.budget
  · rw [if_pos hc] at he
    have h2 := congrArg Prod.snd (Option.some.inj he)
    dsimp only at h2
    rw [← h2]
    exact hiEmpty_coalesce _ _ h
  · rw [if_neg hc] at he
    cases he

theorem hiEmpty_place (s : AState) (bid a : Nat) (h : hiEmpty s) :
    hiEmpty (place s bid a) := by
  unfold place
  dsimp only
  split
  · exact hiEmpty_add_to_free _ _ _ (freelistindex_le_12 _) h
  · exact h

theorem hiEmpty_mm_malloc (s : AState) (size : Nat) (h : hiEmpty s) :
    hiEmpty (mm_malloc s size).2 := by
  by_cases hsz : size = 0
  · simp only [mm_malloc, if_pos hsz]
    exact h
  · simp only [mm_malloc, if_neg hsz]
    cases hf : find_fit s (asize size) with
    | some p =>
      obtain ⟨bid, s1⟩ := p
      exact hiEmpty_place _ _ _ (hiEmpty_find_fit s _ bid s1 h hf).1
    | none =>
      cases he : extend_heap s (asize size / WSIZE) with
      | none => exact h
      | some p =>
        obtain ⟨bid, s1⟩ := p
        exact hiEmpty_place _ _ _ (hiEmpty_extend_heap s _ bid s1 h he)

theorem hiEmpty_mm_free (s : AState) (ptr : Option Nat) (h : hiEmpty s) :
    hiEmpty (mm_free s ptr) := by
  cases ptr with
  | none => exact h
  | some bid => exact hiEmpty_add_to_free _ _ _ (freelistindex_le_12 _) h

theorem hiEmpty_mm_realloc (s : AState) (ptr : Option Nat) (size : Nat)
    (h : hiEmpty s) : hiEmpty (mm_realloc s ptr size).2.1 := by
  by_cases hsz : size = 0
  · simp only [mm_realloc, if_pos hsz]
    exact hiEmpty_mm_free s ptr h
  · cases ptr with
    | none =>
      simp only [mm_realloc, if_neg hsz]
      exact hiEmpty_mm_malloc s size h
    | some bid =>
      simp only [mm_realloc, if_neg hsz]
      by_cases hg : size < blkSize s bid + (Option.map Blk.size (nextBlk s bid)).getD 0 ∧
          (Option.map Blk.alloc (nextBlk s bid)).getD true = false
      · rw [if_pos hg]
        cases hn : nextBlk s bid with
        | none => exact h
        | some n => exact hiEmpty_remove_free _ _ h
      · rw [if_neg hg]
        cases hm : mm_malloc s size with
        | mk r s1 =>
          cases r with
          | none => exact h
          | some nid =>
            have h1 : hiEmpty s1 := by
              have hx := hiEmpty_mm_malloc s size h
              rw [hm] at hx
              exact hx
            exact hiEmpty_mm_free s1 (some bid) h1

theorem hiEmpty_mm_init (budget : Nat) (r : Int) (s2 : AState)
    (hi : mm_init budget = (r, some s2)) : hiEmpty s2 := by
  rw [mm_init] at hi
  by_cases hb : 4 * WSIZE + 16 * WSIZE ≤ budget
  · rw [if_pos hb] at hi
    dsimp only at hi
    cases heq : extend_heap
        { blocks := [], freeLists := List.replicate 16 [], nextId := 0,
          budget := budget - (4 * WSIZE + 16 * WSIZE) } (CHUNKSIZE / WSIZE) with
    | none =>
      rw [heq] at hi
      exact absurd (congrArg Prod.snd hi) (by simp)
    | some p =>
      obtain ⟨bid, s1⟩ := p
      rw [heq] at hi
      have hs2 : s2 = add_to_free s1 bid (freelistindex CHUNKSIZE) :=
        (Option.some.inj (congrArg Prod.snd hi)).symm
      rw [hs2]
      refine hiEmpty_add_to_free _ _ _ (freelistindex_le_12 _) ?_
      have h0 : hiEmpty
          { blocks := ([] : List Blk), freeLists := List.replicate 16 ([] : List Nat),
            nextId := 0, budget := budget - (4 * WSIZE + 16 * WSIZE) } := by
        exact ⟨rfl, rfl, rfl⟩
      exact hiEmpty_extend_heap _ _ bid s1 h0 heq
  · rw [if_neg hb] at hi
    exact absurd (congrArg Prod.snd hi) (by simp)

/-- C10: whatever state `init` builds and every state `allocate`,
`free`, and `reallocate` produce from a state with null heads 13-15
again has null heads 13-15 (the size-class index never exceeds 12), and
`find_fit` only ever returns a block drawn from a class at most 12 —
its scan of classes 13 through 15 can never find one. -/
theorem C10_high_heads_stay_null :
    (∀ n, freelistindex n ≤ 12) ∧
    (∀ budget r s, mm_init budget = (r, some s) → hiEmpty s) ∧
    (∀ s size, hiEmpty s → hiEmpty (mm_malloc s size).2) ∧
    (∀ s p, hiEmpty s → hiEmpty (mm_free s p)) ∧
    (∀ s p size, hiEmpty s → hiEmpty (mm_realloc s p size).2.1) ∧
    (∀ s a b s2, hiEmpty s → find_fit s a = some (b, s2) →
      ∃ i, i ≤ 12 ∧ b ∈ getList s.freeLists i) :=
  ⟨freelistindex_le_12,
   hiEmpty_mm_init,
   hiEmpty_mm_malloc,
   hiEmpty_mm_free,
   hiEmpty_mm_realloc,
   fun s a b s2 h hf => (hiEmpty_find_fit s a b s2 h hf).2⟩

/-- Witness for C10 on the concrete trace: the initial state and the
state after two allocations and two frees both have null heads 13-15,
and `find_fit` after init returns a block of class 8. -/
theorem C10_high_heads_stay_null_witness :
    hiEmpty traceInit ∧ hiEmpty traceFreeB ∧
    (∃ i, i ≤ 12 ∧ 0 ∈ getList traceInit.freeLists i) := by
  have h := C10_high_heads_stay_null
  have h0 : hiEmpty traceInit := h.2.1 8000 0 traceInit (by decide)
  have h1 : hiEmpty (mm_malloc traceInit 16).2 := h.2.2.1 traceInit 16 h0
  have h2 : hiEmpty (mm_malloc (mm_malloc traceInit 16).2 16).2 :=
    h.2.2.1 _ 16 h1
  have h3 : hiEmpty traceFreeB := by
    have hx := h.2.2.2.1 traceFreeA traceB.1 (h.2.2.2.1 traceB.2 traceA.1 h2)
    exact hx
  refine ⟨h0, h3, ?_⟩
  exact h.2.2.2.2.2 traceInit 32 0
    { traceInit with freeLists := setList traceInit.freeLists 8 [] } h0 (by decide)

/-! ### The first-fit search -/

theorem length_of_getList_ne (fl : List (List Nat)) (i : Nat)
    (h : getList fl i ≠ []) : i < fl.length := by
  by_contra hge
  apply h
  simp only [getList, List.get?_eq_none.mpr (by omega : fl.length ≤ i)]
  rfl

theorem getList_setList_self (fl : List (List Nat)) (i : Nat) (l : List Nat)
    (h : i < fl.length) : getList (setList fl i l) i = l := by
  simp only [getList, setList, List.get?_set_eq_of_lt _ h]
  rfl

theorem walkFit_none_spec (s : AState) (a : Nat) :
    ∀ l, walkFit s a l = none → ∀ x ∈ l, blkSize s x < a := by
  intro l
  induction l with
  | nil =>
    intro hw x hx
    cases hx
  | cons y rest ih =>
    intro hw x hx
    rw [walkFit] at hw
    by_cases hfit : a ≤ blkSize s y
    · rw [if_pos hfit] at hw; cases hw
    · rw [if_neg hfit] at hw
      cases hrec : walkFit s a rest with
      | none =>
        rcases List.mem_cons.mp hx with rfl | hx2
        · omega
        · exact ih hrec x hx2
      | some p => rw [hrec] at hw; cases hw

theorem walkFit_some_spec (s : AState) (a : Nat) :
    ∀ l b l2, walkFit s a l = some (b, l2) →
      ∃ pre post, l = pre ++ b :: post ∧ l2 = pre ++ post ∧
        (∀ x ∈ pre, blkSize s x < a) ∧ a ≤ blkSize s b := by
  intro l
  induction l with
  | nil =>
    intro b l2 hw
    simp [walkFit] at hw
  | cons x rest ih =>
    intro b l2 hw
    rw [walkFit] at hw
    by_cases hfit : a ≤ blkSize s x
    · rw [if_pos hfit] at hw
      have h1 := Option.some.inj hw
      have hb : x = b := congrArg Prod.fst h1
      have hl : rest = l2 := congrArg Prod.snd h1
      exact ⟨[], rest, by simp [hb], by simp [hl], by simp, hb ▸ hfit⟩
    · rw [if_neg hfit] at hw
      cases hrec : walkFit s a rest with
      | none => rw [hrec] at hw; cases hw
      | some p =>
        obtain ⟨y, l1⟩ := p
        rw [hrec] at hw
        have h1 := Option.some.inj hw
        have hb : y = b := congrArg Prod.fst h1
        have hl : x :: l1 = l2 := congrArg Prod.snd h1
        obtain ⟨pre, post, he1, he2, hsmall, hbig⟩ := ih y l1 hrec
        refine ⟨x :: pre, post, by simp [he1, hb], ?_, ?_, hb ▸ hbig⟩
        · rw [← hl, he2]; simp
        · intro z hz
          rcases List.mem_cons.mp hz with rfl | hz2
          · omega
          · exact hsmall z hz2

theorem scanHigher_spec (s : AState) :
    ∀ f i b s2, scanHigher s f i = some (b, s2) →
      ∃ j t, i ≤ j ∧ j < 16 ∧ getList s.freeLists j = b :: t ∧
        (∀ k, i ≤ k → k < j → getList s.freeLists k = []) ∧
        s2 = { s with freeLists := setList s.freeLists j t } := by
  intro f
  induction f with
  | zero =>
    intro i b s2 hs
    simp [scanHigher] at hs
  | succ f ih =>
    intro i b s2 hs
    by_cases hi : i < 16
    · rw [scanHigher, if_pos hi] at hs
      cases hgl : getList s.freeLists i with
      | nil =>
        rw [hgl] at hs
        obtain ⟨j, t, hj1, hj2, hj3, hj4, hj5⟩ := ih (i + 1) b s2 hs
        refine ⟨j, t, by omega, hj2, hj3, ?_, hj5⟩
        intro k hk1 hk2
        by_cases hki : k = i
        · rw [hki]; exact hgl
        · exact hj4 k (by omega) hk2
      | cons x t =>
        rw [hgl] at hs
        have h1 := Option.some.inj hs
        have hb : x = b := congrArg Prod.fst h1
        have hst := congrArg Prod.snd h1
        exact ⟨i, t, le_rfl, hi, by rw [hgl, hb],
          fun k hk1 hk2 => absurd hk1 (by omega), hst.symm⟩
    · rw [scanHigher, if_neg hi] at hs
      cases hs

theorem scanHigher_none_spec (s : AState) :
    ∀ f i, scanHigher s f i = none →
      ∀ j, i ≤ j → j < 16 → j < i + f → getList s.freeLists j = [] := by
  intro f
  induction f with
  | zero =>
    intro i hs j hij hj16 hjf
    omega
  | succ f ih =>
    intro i hs j hij hj16 hjf
    by_cases hi : i < 16
    · rw [scanHigher, if_pos hi] at hs
      cases hgl : getList s.freeLists i with
      | nil =>
        rw [hgl] at hs
        by_cases hji : j = i
        · rw [hji]; exact hgl
        · exact ih (i + 1) hs j (by omega) hj16 (by omega)
      | cons x t => rw [hgl] at hs; cases hs
    · omega

/-- C8: `find_fit(asize)` walks the list of class `freelistindex asize`
and returns the first block of size at least `asize` there; failing
that, it takes (without scanning) the head of the first non-empty
strictly higher class, all classes in between being empty; every
returned block is unlinked from its own list (other lists and the heap
blocks untouched); when the returned block came from a strictly higher
class whose members all sit in the class of their own size, it is large
enough; and null comes back only when the starting class holds no
fitting block and every strictly higher class up to the horizon (index
15) is empty. -/
theorem C8_find_fit_first_fit (s : AState) (a : Nat) :
    (∀ b s2, find_fit s a = some (b, s2) →
      ∃ i pre post,
        freelistindex a ≤ i ∧ i < 16 ∧
        getList s.freeLists i = pre ++ b :: post ∧
        getList s2.freeLists i = pre ++ post ∧
        (∀ j, j ≠ i → getList s2.freeLists j = getList s.freeLists j) ∧
        s2.blocks = s.blocks ∧
        (i = freelistindex a → (∀ x ∈ pre, blkSize s x < a) ∧ a ≤ blkSize s b) ∧
        (freelistindex a < i →
          pre = [] ∧
          (∀ x ∈ getList s.freeLists (freelistindex a), blkSize s x < a) ∧
          (∀ k, freelistindex a < k → k < i → getList s.freeLists k = []) ∧
          ((∀ x ∈ getList s.freeLists i, freelistindex (blkSize s x) = i) →
            a ≤ blkSize s b))) ∧
    (find_fit s a = none →
      (∀ x ∈ getList s.freeLists (freelistindex a), blkSize s x < a) ∧
      (∀ j, freelistindex a < j → j < 16 → getList s.freeLists j = [])) := by
  constructor
  · intro b s2 hf
    rw [find_fit] at hf
    cases hw : walkFit s a (getList s.freeLists (freelistindex a)) with
    | some p =>
      obtain ⟨x, l2⟩ := p
      rw [hw] at hf
      have h1 := Option.some.inj hf
      have hb : x = b := congrArg Prod.fst h1
      have hst := congrArg Prod.snd h1
      dsimp only at hst
      obtain ⟨pre, post, he1, he2, hsmall, hbig⟩ := walkFit_some_spec s a _ x l2 hw
      have hlen : freelistindex a < s.freeLists.length := by
        refine length_of_getList_ne _ _ ?_
        rw [he1]
        simp
      refine ⟨freelistindex a, pre, post, le_rfl, by have := freelistindex_le_12 a; omega,
        by rw [he1, hb], ?_, ?_, ?_, ?_, ?_⟩
      · rw [← hst]
        dsimp only
        rw [getList_setList_self _ _ _ hlen, he2]
      · intro j hj
        rw [← hst]
        dsimp only
        exact getList_setList_ne _ _ _ _ (fun hx => hj hx.symm)
      · rw [← hst]
      · intro _
        exact ⟨hsmall, hb ▸ hbig⟩
      · intro hgt
        omega
    | none =>
      rw [hw] at hf
      by_cases h15 : freelistindex a = 15
      · rw [if_pos h15] at hf; cases hf
      · rw [if_neg h15] at hf
        obtain ⟨j, t, hj1, hj2, hj3, hj4, hj5⟩ := scanHigher_spec s 16 _ b s2 hf
        have hownsmall := walkFit_none_spec s a _ hw
        have hlen : j < s.freeLists.length := by
          refine length_of_getList_ne _ _ ?_
          rw [hj3]
          simp
        refine ⟨j, [], t, by omega, hj2, by rw [hj3]; rfl, ?_, ?_, ?_, ?_, ?_⟩
        · rw [hj5]
          dsimp only
          rw [getList_setList_self _ _ _ hlen]
          rfl
        · intro k hk
          rw [hj5]
          dsimp only
          exact getList_setList_ne _ _ _ _ (fun hx => hk hx.symm)
        · rw [hj5]
        · intro heq
          omega
        · intro hgt
          refine ⟨rfl, hownsmall, fun k hk1 hk2 => hj4 k (by omega) hk2, ?_⟩
          intro hinv
          have hbmem : b ∈ getList s.freeLists j := by
            rw [hj3]
            simp
          have hclass := hinv b hbmem
          have : a < blkSize s b := by
            refine lt_of_freelistindex_lt ?_
            rw [hclass]
            omega
          omega
  · intro hf
    rw [find_fit] at hf
    cases hw : walkFit s a (getList s.freeLists (freelistindex a)) with
    | some p =>
      rw [hw] at hf
      cases hf
    | none =>
      rw [hw] at hf
      refine ⟨walkFit_none_spec s a _ hw, ?_⟩
      by_cases h15 : freelistindex a = 15
      · intro j hj1 hj2
        omega
      · rw [if_neg h15] at hf
        intro j hj1 hj2
        exact scanHigher_none_spec s 16 _ hf j (by omega) hj2 (by omega)

/-- Witness for C8: after init the request `asize = 32` (class 1) is
served from the head of class 8, the first non-empty higher class. -/
theorem C8_find_fit_first_fit_witness :
    ∃ i pre post, freelistindex 32 ≤ i ∧
      getList traceInit.freeLists i = pre ++ 0 :: post := by
  obtain ⟨i, pre, post, h1, h2, h3, hrest⟩ :=
    (C8_find_fit_first_fit traceInit 32).1 0
      { traceInit with freeLists := setList traceInit.freeLists 8 [] } (by decide)
  exact ⟨i, pre, post, h1, h3⟩

end MM

